import Mathlib

/-!
Verification of `src/inventory_system.py`, a file-based inventory manager.

The module keeps a process-wide Python dict `stock_data` mapping item names
to quantities and exposes `add_item`, `remove_item`, `get_qty`, `load_data`,
`save_data`, `print_data` and `check_low_items`.  We embed the module
shallowly:

* Python dicts are association lists in insertion order.  Assigning to an
  existing key keeps its position; a new key is appended; `del` removes the
  entry.  Dict keys reachable in this program are the hashable scalars that
  JSON or the operations can produce (`str`, `int`, `bool`, `None`); they are
  the type `PyKey`.  Python compares keys with `==`, under which `True == 1`
  and `False == 0`, which `normKey` captures.
* JSON values decoded by `json.load` are the type `JValue`.  JSON number
  literals with a fractional part (Python floats) are outside the model;
  no claim involves them.
* Arbitrary Python call arguments (the code validates them dynamically with
  `isinstance`) are the type `PyVal`; `vother` stands for any object that is
  neither `str`, `int`, `bool` nor `None` (e.g. a float or a list).
* Each operation is a function from its arguments and the current dict to
  the new dict, the list of `logging` calls it makes (in order), and an
  optional uncaught Python exception.  In CPython an uncaught exception
  aborts the statement but keeps every mutation already performed, so the
  returned dict is the state observable after the raise.
* The file system is abstracted by `FileRead`, the outcome of
  `open(file); json.load(f)`: missing file (`FileNotFoundError`), undecodable
  text (`JSONDecodeError`), or a decoded JSON value.
-/

namespace Inventory

/-- A JSON value as decoded by `json.load` (floats excluded, see above). -/
inductive JValue where
  | jint  : Int → JValue
  | jbool : Bool → JValue
  | jstr  : String → JValue
  | jnull : JValue
  | jarr  : List JValue → JValue
  | jobj  : List (String × JValue) → JValue

/-- A hashable scalar usable as a Python dict key in this program. -/
inductive PyKey where
  | kstr  : String → PyKey
  | kint  : Int → PyKey
  | kbool : Bool → PyKey
  | knull : PyKey
deriving DecidableEq

/-- An arbitrary Python argument, as far as the module's `isinstance`
validation distinguishes them.  `vother` is any object that is neither
`str`, `int`, `bool` nor `None`. -/
inductive PyVal where
  | vstr  : String → PyVal
  | vint  : Int → PyVal
  | vbool : Bool → PyVal
  | vnone : PyVal
  | vother : PyVal
deriving DecidableEq

/-- An uncaught Python exception relevant to this module. -/
inductive PyErr where
  | typeError : PyErr
  | valueError : PyErr
deriving DecidableEq

/-- `logging` severity levels used by the module. -/
inductive Level where
  | info : Level
  | warning : Level
  | error : Level
deriving DecidableEq

/-- One `logging` call of the module, with the arguments it interpolates. -/
inductive LogMsg where
  | errInvalidItem    : PyVal → LogMsg  -- add_item: "Invalid item name: %s."
  | errInvalidQty     : PyVal → LogMsg  -- add_item: "Invalid quantity: %s."
  | warnQtyNonPositive : PyVal → LogMsg -- add_item: "Quantity must be positive."
  | infoAdded         : Int → String → JValue → LogMsg -- "Added %s of %s. New total: %s."
  | errInvalidItemRm  : PyVal → LogMsg  -- remove_item: "Invalid item name: %s."
  | errInvalidQtyRm   : PyVal → LogMsg  -- remove_item: "Invalid quantity: %s."
  | infoRemovedItem   : String → Int → LogMsg -- "Removed item '%s' from stock."
  | infoRemovedQty    : Int → String → JValue → LogMsg -- "Removed %s of %s. New total: %s."
  | warnNotInStock    : String → LogMsg -- "Item '%s' not in stock, cannot remove."
  | errCorruptData    : String → LogMsg -- "Data for item '%s' is corrupt."
  | errInvalidItemGet : PyVal → LogMsg  -- get_qty: "Invalid item name: %s."
  | infoLoaded        : String → LogMsg -- "Inventory loaded successfully from %s."
  | warnNotFound      : String → LogMsg -- "Inventory file '%s' not found."
  | errDecodeFail     : String → LogMsg -- "Could not decode JSON from '%s'."

/-- Severity of each `logging` call, per the source. -/
def LogMsg.level : LogMsg → Level
  | .errInvalidItem _ => .error
  | .errInvalidQty _ => .error
  | .warnQtyNonPositive _ => .warning
  | .infoAdded _ _ _ => .info
  | .errInvalidItemRm _ => .error
  | .errInvalidQtyRm _ => .error
  | .infoRemovedItem _ _ => .info
  | .infoRemovedQty _ _ _ => .info
  | .warnNotInStock _ => .warning
  | .errCorruptData _ => .error
  | .errInvalidItemGet _ => .error
  | .infoLoaded _ => .info
  | .warnNotFound _ => .warning
  | .errDecodeFail _ => .error

/-- The in-memory inventory: the Python dict `stock_data`, as an association
list in insertion order. -/
abbrev Stock := List (PyKey × JValue)

/-- Python `==` on dict keys identifies `True` with `1` and `False` with `0`
(`bool` is an `int` subclass); `normKey` maps a key to that canonical form. -/
def normKey : PyKey → PyKey
  | .kbool b => .kint (if b then 1 else 0)
  | k => k

/-- Python `==` on the keys in play: equality of canonical forms. -/
def keyEq (a b : PyKey) : Bool := decide (normKey a = normKey b)

/-- `d[k]` / `d.get(k)` lookup: first entry whose key compares `==`. -/
def dictGet : Stock → PyKey → Option JValue
  | [], _ => none
  | (k2, v) :: rest, k => if keyEq k2 k then some v else dictGet rest k

/-- `d[k] = v`: replace the value of an `==`-equal key in place (the stored
key object is kept, as CPython does), else append a new entry. -/
def dictSet : Stock → PyKey → JValue → Stock
  | [], k, v => [(k, v)]
  | (k2, v2) :: rest, k, v =>
      if keyEq k2 k then (k2, v) :: rest else (k2, v2) :: dictSet rest k v

/-- `del d[k]`: drop the `==`-equal entry (callers only delete present keys). -/
def dictDel : Stock → PyKey → Stock
  | [], _ => []
  | (k2, v2) :: rest, k =>
      if keyEq k2 k then rest else (k2, v2) :: dictDel rest k

/-- `isinstance(x, int)` view of an argument (`bool` is an `int` subclass);
`some` returns the numeric value used by arithmetic and comparisons. -/
def pyInt : PyVal → Option Int
  | .vint n => some n
  | .vbool b => some (if b then 1 else 0)
  | _ => none

/-- Numeric view of a stored value: Python can add/compare an `int` with an
`int` or a `bool`; every other stored value raises `TypeError` there. -/
def toNum : JValue → Option Int
  | .jint n => some n
  | .jbool b => some (if b then 1 else 0)
  | _ => none

/-- Python `v + q` for a stored value `v` and an `int` `q`. -/
def jadd (v : JValue) (q : Int) : Except PyErr JValue :=
  match toNum v with
  | some n => .ok (.jint (n + q))
  | none => .error .typeError

/-- Python `v <= q` for a stored value `v` and an `int` `q`. -/
def jle (v : JValue) (q : Int) : Except PyErr Bool :=
  match toNum v with
  | some n => .ok (decide (n ≤ q))
  | none => .error .typeError

/-- Python `v - q` for a stored value `v` and an `int` `q`. -/
def jsub (v : JValue) (q : Int) : Except PyErr JValue :=
  match toNum v with
  | some n => .ok (.jint (n - q))
  | none => .error .typeError

/-- `add_item(item, qty)` (source lines 15-35).  Validates `item` and `qty`,
then runs `stock_data[item] = stock_data.get(item, 0) + qty`.  The `+` raises
an uncaught `TypeError` when the stored value is not numeric; the raise
happens before the assignment, so the dict is then unchanged. -/
def add_item (item qty : PyVal) (s : Stock) : Stock × List LogMsg × Option PyErr :=
  match item with
  | .vstr name =>
    if name = "" then (s, [.errInvalidItem item], none)
    else
      match pyInt qty with
      | none => (s, [.errInvalidQty qty], none)
      | some q =>
        if q ≤ 0 then (s, [.warnQtyNonPositive qty], none)
        else
          match jadd ((dictGet s (.kstr name)).getD (.jint 0)) q with
          | .error e => (s, [], some e)
          | .ok v => (dictSet s (.kstr name) v, [.infoAdded q name v], none)
  | _ => (s, [.errInvalidItem item], none)

/-- `remove_item(item, qty)` (source lines 38-70).  Validates the arguments,
then in a `try` block compares `stock_data[item] <= qty`: a missing key
(`KeyError`) logs "not in stock", a non-numeric stored value (`TypeError`
from `<=` or `-`) logs "corrupt", otherwise the entry is deleted
(current `<=` qty) or decremented.  Both handlers absorb the exception. -/
def remove_item (item qty : PyVal) (s : Stock) : Stock × List LogMsg × Option PyErr :=
  match item with
  | .vstr name =>
    if name = "" then (s, [.errInvalidItemRm item], none)
    else
      match pyInt qty with
      | none => (s, [.errInvalidQtyRm qty], none)
      | some q =>
        if q ≤ 0 then (s, [.errInvalidQtyRm qty], none)
        else
          match dictGet s (.kstr name) with
          | none => (s, [.warnNotInStock name], none)
          | some v =>
            match jle v q with
            | .error _ => (s, [.errCorruptData name], none)
            | .ok true => (dictDel s (.kstr name), [.infoRemovedItem name q], none)
            | .ok false =>
              match jsub v q with
              | .error _ => (s, [.errCorruptData name], none)
              | .ok v2 => (dictSet s (.kstr name) v2, [.infoRemovedQty q name v2], none)
  | _ => (s, [.errInvalidItemRm item], none)

/-- `get_qty(item)` (source lines 73-86): returns `stock_data.get(item, 0)`
(whatever object is stored), or `0` with an error log for a non-`str`
argument.  It never mutates the dict and never raises. -/
def get_qty (item : PyVal) (s : Stock) : JValue × List LogMsg :=
  match item with
  | .vstr name => ((dictGet s (.kstr name)).getD (.jint 0), [])
  | _ => (.jint 0, [.errInvalidItemGet item])

/-- Outcome of `open(file, "r"); json.load(f)` in `load_data`: the file may
be missing (`FileNotFoundError`), hold text that is not valid JSON
(`JSONDecodeError`), or decode to a JSON value. -/
inductive FileRead where
  | absent : FileRead
  | invalidJSON : FileRead
  | decoded : JValue → FileRead

/-- `hash(k)` on a decoded JSON value used as a dict key: lists and dicts
are unhashable (`TypeError`); scalars become keys. -/
def hashableKey : JValue → Except PyErr PyKey
  | .jint n => .ok (.kint n)
  | .jbool b => .ok (.kbool b)
  | .jstr s2 => .ok (.kstr s2)
  | .jnull => .ok .knull
  | _ => .error .typeError

/-- One element of a non-dict argument to `dict.update`: CPython converts
the element to a sequence, requires length 2 (`ValueError` otherwise), and
hashes the first component (`TypeError` if unhashable).  A 2-element list
gives its two members; a 2-character string gives its two characters;
iterating a dict yields its keys, so a 2-entry object gives its two key
strings. -/
def seqElemToPair : JValue → Except PyErr (PyKey × JValue)
  | .jarr [k, v] => (hashableKey k).map (fun k2 => (k2, v))
  | .jarr _ => .error .valueError
  | .jstr s2 =>
    match s2.data with
    | [c1, c2] => .ok (.kstr (String.mk [c1]), .jstr (String.mk [c2]))
    | _ => .error .valueError
  | .jobj kvs =>
    -- json-decoded objects have distinct keys
    match kvs.map Prod.fst with
    | [k1, k2] => .ok (.kstr k1, .jstr k2)
    | _ => .error .valueError
  | _ => .error .typeError

/-- `dict.update` fed a sequence of pair-likes: elements are inserted one by
one; the first bad element raises, keeping the insertions already made. -/
def dictUpdateSeq (d : Stock) : List JValue → Stock × Option PyErr
  | [] => (d, none)
  | e :: rest =>
    match seqElemToPair e with
    | .error err => (d, some err)
    | .ok (k, v) => dictUpdateSeq (dictSet d k v) rest

/-- `d.update(data)` for a decoded JSON value `data`: a decoded object is
merged entry by entry (its keys are strings); a list or string is treated
as a sequence of pair-likes; any other value is not iterable and raises
`TypeError`. -/
def dictUpdate (d : Stock) : JValue → Stock × Option PyErr
  | .jobj kvs => (kvs.foldl (fun acc kv => dictSet acc (.kstr kv.1) kv.2) d, none)
  | .jarr xs => dictUpdateSeq d xs
  | .jstr s2 => dictUpdateSeq d (s2.data.map (fun c => .jstr (String.mk [c])))
  | _ => (d, some .typeError)

/-- `load_data(file)` (source lines 89-109).  On a decode success it runs
`stock_data.clear(); stock_data.update(data)`; only `FileNotFoundError` and
`json.JSONDecodeError` are caught, so an exception thrown by `update` (the
decoded value not being a dict or a valid pair sequence) propagates to the
caller with the dict already cleared and partially repopulated. -/
def load_data (file : String) (fr : FileRead) (s : Stock) :
    Stock × List LogMsg × Option PyErr :=
  match fr with
  | .absent => (s, [.warnNotFound file], none)
  | .invalidJSON => (s, [.errDecodeFail file], none)
  | .decoded v =>
    match dictUpdate [] v with
    | (s2, none) => (s2, [.infoLoaded file], none)
    | (s2, some e) => (s2, [], some e)

/-- `json.dump` coercion of a dict key to a JSON object key: strings pass
through, `int`/`bool`/`None` keys are stringified. -/
def keyToStr : PyKey → String
  | .kstr s2 => s2
  | .kint n => toString n
  | .kbool b => if b then "true" else "false"
  | .knull => "null"

/-- `save_data(file)` (source lines 112-125): serializes the whole dict as a
JSON object.  The file channel is modelled at the JSON-value level
(`json.load` of the written text yields exactly this value); an `IOError`
on opening the file is outside the model, which assumes the write succeeds. -/
def save_data (s : Stock) : JValue :=
  .jobj (s.map (fun kv => (keyToStr kv.1, kv.2)))

/-- `check_low_items(threshold)` (source lines 138-148):
`[item for item, qty in stock_data.items() if qty <= threshold]`.  The
comparison of a non-numeric stored value with the `int` threshold raises an
uncaught `TypeError`, aborting the comprehension. -/
def check_low_items (threshold : Int) : Stock → Except PyErr (List PyKey)
  | [] => .ok []
  | (k, v) :: rest =>
    match jle v threshold with
    | .error e => .error e
    | .ok true => (check_low_items threshold rest).map (fun l => k :: l)
    | .ok false => check_low_items threshold rest

/-- One call of a store operation, for reasoning about call sequences.
`get_qty`, `check_low_items` and `print_data` (source lines 128-135) only
read `stock_data`, and `save_data` writes the file, not the dict. -/
inductive Op where
  | add : PyVal → PyVal → Op
  | remove : PyVal → PyVal → Op
  | get : PyVal → Op
  | load : String → FileRead → Op
  | save : String → Op
  | checkLow : Int → Op
  | report : Op

/-- Effect of one operation on the dict (the state after the call, whether
or not the call raised). -/
def stepOp (s : Stock) : Op → Stock
  | .add item qty => (add_item item qty s).1
  | .remove item qty => (remove_item item qty s).1
  | .get _ => s
  | .load f fr => (load_data f fr s).1
  | .save _ => s
  | .checkLow _ => s
  | .report => s

/-- The dict after a sequence of operations from a starting state. -/
def runOps (ops : List Op) (s : Stock) : Stock := ops.foldl stepOp s

/-- A stored value that is a strictly positive integer. -/
def isPosInt : JValue → Bool
  | .jint n => decide (0 < n)
  | _ => false

/-- A file whose `load_data` outcome cannot break positivity: missing,
undecodable, or decoding to an object all of whose values are positive
integers (in particular, any file written by `save_data` from a state whose
values are positive integers). -/
def goodFile : FileRead → Bool
  | .absent => true
  | .invalidJSON => true
  | .decoded (.jobj kvs) => kvs.all (fun kv => isPosInt kv.2)
  | .decoded _ => false

/-- An operation whose file input (if any) is good in the above sense. -/
def goodOp : Op → Bool
  | .load _ fr => goodFile fr
  | _ => true

/-- A stored value that is an integer (`int`, not `bool`). -/
def isIntVal : JValue → Bool
  | .jint _ => true
  | _ => false

/-- The comprehension filter of `check_low_items`, on integer values. -/
def intLe (v : JValue) (t : Int) : Bool :=
  match v with
  | .jint n => decide (n ≤ t)
  | _ => false

/-- A key that is a Python `str`. -/
def isStrKey : PyKey → Bool
  | .kstr _ => true
  | _ => false

/-- Representation invariant of a Python dict: no two entries have
`==`-equal keys. -/
def stockWF (s : Stock) : Prop := (s.map (fun kv => normKey kv.1)).Nodup

instance : DecidablePred stockWF := fun _ => List.nodupDecidable _

theorem keyEq_iff {a b : PyKey} : keyEq a b = true ↔ normKey a = normKey b := by
  simp [keyEq]

theorem keyEq_refl (k : PyKey) : keyEq k k = true := keyEq_iff.mpr rfl

theorem keyEq_false_iff {a b : PyKey} : keyEq a b = false ↔ normKey a ≠ normKey b := by
  simp [keyEq]

theorem normKey_eq_kstr {k : PyKey} {n : String} :
    normKey k = .kstr n ↔ k = .kstr n := by
  cases k <;> simp [normKey]

theorem dictGet_set_self (s : Stock) (k : PyKey) (v : JValue) :
    dictGet (dictSet s k v) k = some v := by
  induction s with
  | nil => simp [dictGet, dictSet, keyEq_refl]
  | cons hd tl ih =>
    obtain ⟨k2, v2⟩ := hd
    by_cases h : keyEq k2 k = true
    · simp [dictGet, dictSet, h]
    · simp only [Bool.not_eq_true] at h
      simp [dictGet, dictSet, h, ih]

theorem dictGet_set_ne (s : Stock) {k k2 : PyKey} (v : JValue)
    (h : normKey k ≠ normKey k2) :
    dictGet (dictSet s k2 v) k = dictGet s k := by
  have hk2k : keyEq k2 k = false := keyEq_false_iff.mpr (fun hh => h hh.symm)
  induction s with
  | nil => simp [dictGet, dictSet, hk2k]
  | cons hd tl ih =>
    obtain ⟨k3, v3⟩ := hd
    by_cases h3 : keyEq k3 k2 = true
    · have h3' : normKey k3 = normKey k2 := keyEq_iff.mp h3
      have hk3 : keyEq k3 k = false :=
        keyEq_false_iff.mpr (fun hh => h ((h3'.symm.trans hh).symm))
      simp [dictGet, dictSet, h3, hk3]
    · simp only [Bool.not_eq_true] at h3
      by_cases hq : keyEq k3 k = true
      · simp [dictGet, dictSet, h3, hq]
      · simp only [Bool.not_eq_true] at hq
        simp [dictGet, dictSet, h3, hq, ih]

theorem dictGet_del_ne (s : Stock) {k k2 : PyKey}
    (h : normKey k ≠ normKey k2) :
    dictGet (dictDel s k2) k = dictGet s k := by
  induction s with
  | nil => simp [dictDel]
  | cons hd tl ih =>
    obtain ⟨k3, v3⟩ := hd
    by_cases h3 : keyEq k3 k2 = true
    · have h3' : normKey k3 = normKey k2 := keyEq_iff.mp h3
      have hk3 : keyEq k3 k = false :=
        keyEq_false_iff.mpr (fun hh => h ((h3'.symm.trans hh).symm))
      simp [dictGet, dictDel, h3, hk3]
    · simp only [Bool.not_eq_true] at h3
      by_cases hq : keyEq k3 k = true
      · simp [dictGet, dictDel, h3, hq]
      · simp only [Bool.not_eq_true] at hq
        simp [dictGet, dictDel, h3, hq, ih]

theorem dictGet_eq_none_of_ne {s : Stock} {k : PyKey}
    (h : ∀ kv ∈ s, normKey kv.1 ≠ normKey k) : dictGet s k = none := by
  induction s with
  | nil => rfl
  | cons hd tl ih =>
    obtain ⟨k2, v2⟩ := hd
    have hk : keyEq k2 k = false :=
      keyEq_false_iff.mpr (h (k2, v2) (List.mem_cons_self _ _))
    simp [dictGet, hk]
    exact ih (fun kv hkv => h kv (List.mem_cons_of_mem _ hkv))

theorem dictGet_del_self {s : Stock} (hwf : stockWF s) (k : PyKey) :
    dictGet (dictDel s k) k = none := by
  induction s with
  | nil => rfl
  | cons hd tl ih =>
    obtain ⟨k2, v2⟩ := hd
    have hwf' : stockWF tl := (List.nodup_cons.mp hwf).2
    by_cases h2 : keyEq k2 k = true
    · have h2' : normKey k2 = normKey k := keyEq_iff.mp h2
      have hnot := (List.nodup_cons.mp hwf).1
      simp only [dictDel, h2, if_pos]
      refine dictGet_eq_none_of_ne (fun kv hkv hh => hnot ?_)
      show normKey k2 ∈ List.map (fun kv => normKey kv.1) tl
      rw [h2', ← hh]
      exact List.mem_map.mpr ⟨kv, hkv, rfl⟩
    · simp only [Bool.not_eq_true] at h2
      simp [dictDel, dictGet, h2, ih hwf']

theorem mem_dictSet {s : Stock} {k : PyKey} {v : JValue} {kv : PyKey × JValue}
    (h : kv ∈ dictSet s k v) : kv ∈ s ∨ kv.2 = v := by
  induction s with
  | nil =>
    simp [dictSet] at h
    right; rw [h]
  | cons hd tl ih =>
    obtain ⟨k2, v2⟩ := hd
    by_cases h2 : keyEq k2 k = true
    · simp [dictSet, h2] at h
      rcases h with h | h
      · right; rw [h]
      · left; exact List.mem_cons_of_mem _ h
    · simp only [Bool.not_eq_true] at h2
      simp [dictSet, h2] at h
      rcases h with h | h
      · left; simp [h]
      · rcases ih h with h' | h'
        · left; exact List.mem_cons_of_mem _ h'
        · right; exact h'

theorem mem_dictDel {s : Stock} {k : PyKey} {kv : PyKey × JValue}
    (h : kv ∈ dictDel s k) : kv ∈ s := by
  induction s with
  | nil => simp [dictDel] at h
  | cons hd tl ih =>
    obtain ⟨k2, v2⟩ := hd
    by_cases h2 : keyEq k2 k = true
    · simp [dictDel, h2] at h
      exact List.mem_cons_of_mem _ h
    · simp only [Bool.not_eq_true] at h2
      simp [dictDel, h2] at h
      rcases h with h | h
      · simp [h]
      · exact List.mem_cons_of_mem _ (ih h)

theorem dictGet_mem {s : Stock} {k : PyKey} {v : JValue}
    (h : dictGet s k = some v) : ∃ k2, (k2, v) ∈ s := by
  induction s with
  | nil => simp [dictGet] at h
  | cons hd tl ih =>
    obtain ⟨k2, v2⟩ := hd
    by_cases h2 : keyEq k2 k = true
    · simp [dictGet, h2] at h
      exact ⟨k2, by simp [h]⟩
    · simp only [Bool.not_eq_true] at h2
      simp [dictGet, h2] at h
      obtain ⟨k3, hk3⟩ := ih h
      exact ⟨k3, List.mem_cons_of_mem _ hk3⟩

theorem objUpd_posPreserve (kvs : List (String × JValue)) (acc : Stock)
    (hacc : ∀ kv ∈ acc, isPosInt kv.2 = true)
    (hkvs : ∀ kv ∈ kvs, isPosInt kv.2 = true) :
    ∀ kv ∈ kvs.foldl (fun a kv => dictSet a (.kstr kv.1) kv.2) acc,
      isPosInt kv.2 = true := by
  induction kvs generalizing acc with
  | nil => simpa using hacc
  | cons hd tl ih =>
    obtain ⟨n, v⟩ := hd
    simp only [List.foldl_cons]
    refine ih (dictSet acc (.kstr n) v) ?_ ?_
    · intro kv hkv
      rcases mem_dictSet hkv with h | h
      · exact hacc kv h
      · rw [h]; exact hkvs (n, v) (List.mem_cons_self _ _)
    · exact fun kv hkv => hkvs kv (List.mem_cons_of_mem _ hkv)

theorem add_item_pos {s : Stock} (item qty : PyVal)
    (hs : ∀ kv ∈ s, isPosInt kv.2 = true) :
    ∀ kv ∈ (add_item item qty s).1, isPosInt kv.2 = true := by
  cases item with
  | vstr name =>
    by_cases hn : name = ""
    · simpa [add_item, hn] using hs
    · cases hq : pyInt qty with
      | none => simpa [add_item, hn, hq] using hs
      | some q =>
        by_cases hq0 : q ≤ 0
        · simpa [add_item, hn, hq, hq0] using hs
        · cases hv : dictGet s (.kstr name) with
          | none =>
            simp only [add_item, hn, if_neg hn, hq, hq0, if_neg hq0, hv,
              Option.getD_none, jadd, toNum]
            intro kv hkv
            rcases mem_dictSet hkv with h | h
            · exact hs kv h
            · rw [h]; simp [isPosInt]; omega
          | some v =>
            obtain ⟨k2, hk2⟩ := dictGet_mem hv
            have hvpos := hs (k2, v) hk2
            cases v with
            | jint n =>
              simp only [isPosInt, decide_eq_true_eq] at hvpos
              simp only [add_item, if_neg hn, hq, if_neg hq0, hv,
                Option.getD_some, jadd, toNum]
              intro kv hkv
              rcases mem_dictSet hkv with h | h
              · exact hs kv h
              · rw [h]; simp [isPosInt]; omega
            | jbool b => simp [isPosInt] at hvpos
            | jstr s2 => simp [isPosInt] at hvpos
            | jnull => simp [isPosInt] at hvpos
            | jarr xs => simp [isPosInt] at hvpos
            | jobj kvs => simp [isPosInt] at hvpos
  | vint n => simpa [add_item] using hs
  | vbool b => simpa [add_item] using hs
  | vnone => simpa [add_item] using hs
  | vother => simpa [add_item] using hs

theorem remove_item_pos {s : Stock} (item qty : PyVal)
    (hs : ∀ kv ∈ s, isPosInt kv.2 = true) :
    ∀ kv ∈ (remove_item item qty s).1, isPosInt kv.2 = true := by
  cases item with
  | vstr name =>
    by_cases hn : name = ""
    · simpa [remove_item, hn] using hs
    · cases hq : pyInt qty with
      | none => simpa [remove_item, hn, hq] using hs
      | some q =>
        by_cases hq0 : q ≤ 0
        · simpa [remove_item, hn, hq, hq0] using hs
        · cases hv : dictGet s (.kstr name) with
          | none => simpa [remove_item, hn, hq, hq0, hv] using hs
          | some v =>
            obtain ⟨k2, hk2⟩ := dictGet_mem hv
            have hvpos := hs (k2, v) hk2
            cases v with
            | jint n =>
              by_cases hle : n ≤ q
              · simp only [remove_item, if_neg hn, hq, if_neg hq0, hv, jle,
                  toNum, decide_eq_true hle]
                intro kv hkv
                exact hs kv (mem_dictDel hkv)
              · have hd : decide (n ≤ q) = false := by simp [hle]
                simp only [remove_item, if_neg hn, hq, if_neg hq0, hv, jle,
                  toNum, jsub, hd]
                intro kv hkv
                rcases mem_dictSet hkv with h | h
                · exact hs kv h
                · rw [h]; simp [isPosInt]; omega
            | jbool b => simp [isPosInt] at hvpos
            | jstr s2 => simp [isPosInt] at hvpos
            | jnull => simp [isPosInt] at hvpos
            | jarr xs => simp [isPosInt] at hvpos
            | jobj kvs => simp [isPosInt] at hvpos
  | vint n => simpa [remove_item] using hs
  | vbool b => simpa [remove_item] using hs
  | vnone => simpa [remove_item] using hs
  | vother => simpa [remove_item] using hs

theorem load_data_pos {s : Stock} (f : String) {fr : FileRead}
    (hfr : goodFile fr = true) (hs : ∀ kv ∈ s, isPosInt kv.2 = true) :
    ∀ kv ∈ (load_data f fr s).1, isPosInt kv.2 = true := by
  cases fr with
  | absent => simpa [load_data] using hs
  | invalidJSON => simpa [load_data] using hs
  | decoded v =>
    cases v with
    | jobj kvs =>
      simp only [goodFile, List.all_eq_true, decide_eq_true_eq] at hfr
      simp only [load_data, dictUpdate]
      exact objUpd_posPreserve kvs [] (by simp) hfr
    | jint n => simp [goodFile] at hfr
    | jbool b => simp [goodFile] at hfr
    | jstr s2 => simp [goodFile] at hfr
    | jnull => simp [goodFile] at hfr
    | jarr xs => simp [goodFile] at hfr

theorem stepOp_pos {s : Stock} {op : Op} (hop : goodOp op = true)
    (hs : ∀ kv ∈ s, isPosInt kv.2 = true) :
    ∀ kv ∈ stepOp s op, isPosInt kv.2 = true := by
  cases op with
  | add item qty => exact add_item_pos item qty hs
  | remove item qty => exact remove_item_pos item qty hs
  | get _ => exact hs
  | load f fr => exact load_data_pos f (by simpa [goodOp] using hop) hs
  | save _ => exact hs
  | checkLow _ => exact hs
  | report => exact hs

theorem runOps_pos {s : Stock} {ops : List Op}
    (hops : ∀ op ∈ ops, goodOp op = true)
    (hs : ∀ kv ∈ s, isPosInt kv.2 = true) :
    ∀ kv ∈ runOps ops s, isPosInt kv.2 = true := by
  induction ops generalizing s with
  | nil => simpa [runOps] using hs
  | cons op rest ih =>
    have h1 : ∀ kv ∈ stepOp s op, isPosInt kv.2 = true :=
      stepOp_pos (hops op (List.mem_cons_self _ _)) hs
    simpa [runOps] using
      ih (fun o ho => hops o (List.mem_cons_of_mem _ ho)) h1

theorem dictGet_cons_none {k2 : PyKey} {v2 : JValue} {tl : Stock} {k : PyKey}
    (h : dictGet ((k2, v2) :: tl) k = none) :
    keyEq k2 k = false ∧ dictGet tl k = none := by
  by_cases h2 : keyEq k2 k = true
  · simp [dictGet, h2] at h
  · simp only [Bool.not_eq_true] at h2
    simp [dictGet, h2] at h
    exact ⟨h2, h⟩

theorem dictSet_append {s : Stock} {k : PyKey} (v : JValue)
    (h : dictGet s k = none) : dictSet s k v = s ++ [(k, v)] := by
  induction s with
  | nil => rfl
  | cons hd tl ih =>
    obtain ⟨k2, v2⟩ := hd
    obtain ⟨hk, htl⟩ := dictGet_cons_none h
    simp [dictSet, hk, ih htl]

theorem dictGet_append_none {a : Stock} (b : Stock) {k : PyKey}
    (h : dictGet a k = none) : dictGet (a ++ b) k = dictGet b k := by
  induction a with
  | nil => rfl
  | cons hd tl ih =>
    obtain ⟨k2, v2⟩ := hd
    obtain ⟨hk, htl⟩ := dictGet_cons_none h
    simp [dictGet, hk, ih htl]

/-- Replaying `save_data`'s serialized entries into an empty dict rebuilds
the original dict: inserting string-keyed entries with fresh keys appends
them in order. -/
theorem foldl_set_strkeys (s : Stock) : ∀ (acc : Stock),
    (∀ kv ∈ s, isStrKey kv.1 = true) →
    (∀ kv ∈ s, dictGet acc kv.1 = none) →
    stockWF s →
    (s.map (fun kv => (keyToStr kv.1, kv.2))).foldl
        (fun acc kv => dictSet acc (.kstr kv.1) kv.2) acc = acc ++ s := by
  induction s with
  | nil => intro acc _ _ _; simp
  | cons hd tl ih =>
    intro acc hstr hfresh hwf
    obtain ⟨k, v⟩ := hd
    cases k with
    | kstr n =>
      have hk2 : keyToStr (.kstr n) = n := rfl
      simp only [List.map_cons, List.foldl_cons, hk2]
      have h1 : dictGet acc (.kstr n) = none :=
        hfresh (.kstr n, v) (List.mem_cons_self _ _)
      rw [dictSet_append v h1]
      have hnotin := (List.nodup_cons.mp hwf).1
      have hres := ih (acc ++ [(.kstr n, v)])
        (fun kv hkv => hstr kv (List.mem_cons_of_mem _ hkv))
        (fun kv hkv => by
          rw [dictGet_append_none [(.kstr n, v)]
            (hfresh kv (List.mem_cons_of_mem _ hkv))]
          have hne : keyEq (.kstr n) kv.1 = false := by
            refine keyEq_false_iff.mpr (fun hh => hnotin ?_)
            show normKey (.kstr n) ∈ List.map (fun kv => normKey kv.1) tl
            rw [hh]
            exact List.mem_map.mpr ⟨kv, hkv, rfl⟩
          simp [dictGet, hne])
        (List.nodup_cons.mp hwf).2
      rw [hres, List.append_assoc]
      simp
    | kint m => exact absurd (hstr (.kint m, v) (List.mem_cons_self _ _)) (by simp [isStrKey])
    | kbool b => exact absurd (hstr (.kbool b, v) (List.mem_cons_self _ _)) (by simp [isStrKey])
    | knull => exact absurd (hstr (.knull, v) (List.mem_cons_self _ _)) (by simp [isStrKey])

/-- A dict holding any non-numeric value makes the comprehension in
`check_low_items` raise `TypeError`. -/
theorem check_low_items_has_corrupt (t : Int) {s : Stock}
    (h : ∃ kv ∈ s, toNum kv.2 = none) :
    check_low_items t s = .error .typeError := by
  induction s with
  | nil => simp at h
  | cons hd tl ih =>
    obtain ⟨k, v⟩ := hd
    cases hv : toNum v with
    | none => simp [check_low_items, jle, hv]
    | some n =>
      have htl : ∃ kv ∈ tl, toNum kv.2 = none := by
        obtain ⟨kv, hkv, hnum⟩ := h
        rcases List.mem_cons.mp hkv with heq | hmem
        · rw [heq] at hnum; simp at hnum; rw [hnum] at hv; simp at hv
        · exact ⟨kv, hmem, hnum⟩
      by_cases hle : n ≤ t
      · simp [check_low_items, jle, hv, decide_eq_true hle, ih htl, Except.map]
      · have hd : decide (n ≤ t) = false := by simp [hle]
        simp [check_low_items, jle, hv, hd, ih htl]

/-- C1 (corrected).  The claim quantifies over load with any arguments, but
`load_data` trusts decoded file content as-is, so loading a JSON object with
a non-positive value puts that value in the mapping (see
`runOps_positivity_counterexample`).  Amended claim: every sequence of the
store's operations starting from the empty mapping preserves the invariant
"every key present has a strictly positive integer value", provided each
`load` in the sequence reads a file that is missing, undecodable, or decodes
to a JSON object all of whose values are positive integers (in particular a
file written by `save` from such a state); `add`, `remove`, `get_quantity`,
`check_low_items`, `save` and `print_report` may take ANY arguments. -/
theorem runOps_preserves_positivity (ops : List Op)
    (h : ∀ op ∈ ops, goodOp op = true) :
    (runOps ops []).all (fun kv => isPosInt kv.2) = true := by
  rw [List.all_eq_true]
  exact fun kv hkv => runOps_pos h (fun kv hkv => by simp at hkv) kv hkv

/-- Witness for C1: the demo sequence of `main`, with an interleaved load of
a well-formed file, ends in a mapping of positive values. -/
theorem runOps_preserves_positivity_witness :
    (runOps [Op.add (.vstr "apple") (.vint 10), Op.add (.vstr "banana") (.vint 25),
      Op.add (.vstr "banana") (.vint (-2)), Op.add (.vbool true) (.vstr "ten"),
      Op.load "inventory.json" (.decoded (.jobj [("cherry", .jint 5)])),
      Op.remove (.vstr "cherry") (.vint 3), Op.remove (.vstr "orange") (.vint 1),
      Op.get (.vstr "apple"), Op.checkLow 5, Op.save "inventory.json",
      Op.report] []).all (fun kv => isPosInt kv.2) = true :=
  runOps_preserves_positivity _ (by decide)

/-- Counterexample to C1 as stated: a single `load` of a file holding the
JSON object with "apple" mapped to -5 (a legal call sequence) leaves an
entry whose value is ≤ 0 in the mapping. -/
theorem runOps_positivity_counterexample :
    runOps [Op.load "inventory.json" (.decoded (.jobj [("apple", .jint (-5))]))] []
      = [(.kstr "apple", .jint (-5))]
    ∧ dictGet [(.kstr "apple", .jint (-5))] (.kstr "apple") = some (.jint (-5))
    ∧ isPosInt (.jint (-5)) = false :=
  ⟨rfl, rfl, rfl⟩

/-- C2 (confirmed).  For a non-empty string item and an integer qty > 0,
when the pre-call stored value is an integer `pre` (`pre = 0` when the item
is absent, matching `stock_data.get(item, 0)`), `add_item` stores
`pre + qty` at the item, logs the new total at info level, raises nothing,
and `get_qty` then returns `pre + qty`. -/
theorem add_item_increments (s : Stock) (name : String) (q pre : Int)
    (hname : name ≠ "") (hq : 0 < q)
    (hpre : (dictGet s (.kstr name)).getD (.jint 0) = .jint pre) :
    add_item (.vstr name) (.vint q) s
      = (dictSet s (.kstr name) (.jint (pre + q)),
         [.infoAdded q name (.jint (pre + q))], none)
    ∧ (get_qty (.vstr name) (add_item (.vstr name) (.vint q) s).1).1
        = .jint (pre + q) := by
  have hq0 : ¬ q ≤ 0 := not_le.mpr hq
  have h1 : add_item (.vstr name) (.vint q) s
      = (dictSet s (.kstr name) (.jint (pre + q)),
         [.infoAdded q name (.jint (pre + q))], none) := by
    simp only [add_item, if_neg hname, pyInt, if_neg hq0, hpre, jadd, toNum]
  refine ⟨h1, ?_⟩
  rw [h1]
  simp [get_qty, dictGet_set_self]

/-- Witness for C2: adding 3 apples to a stock of 7 gives 10; adding to an
absent item creates it at exactly the added quantity. -/
theorem add_item_increments_witness :
    (add_item (.vstr "apple") (.vint 3) [(.kstr "apple", .jint 7)]
      = ([(.kstr "apple", .jint 10)], [.infoAdded 3 "apple" (.jint 10)], none)
    ∧ (get_qty (.vstr "apple")
        (add_item (.vstr "apple") (.vint 3) [(.kstr "apple", .jint 7)]).1).1
        = .jint 10)
    ∧ (add_item (.vstr "pear") (.vint 4) []
      = ([(.kstr "pear", .jint 4)], [.infoAdded 4 "pear" (.jint 4)], none)
    ∧ (get_qty (.vstr "pear") (add_item (.vstr "pear") (.vint 4) []).1).1
        = .jint 4) :=
  ⟨add_item_increments [(.kstr "apple", .jint 7)] "apple" 3 7
      (by decide) (by decide) rfl,
    add_item_increments [] "pear" 4 0 (by decide) (by decide) rfl⟩

/-- C3 (confirmed).  On a well-formed dict holding an integer quantity
`cur` for a non-empty item, `remove_item` with an integer `qty > 0` deletes
the entry entirely when `cur ≤ qty` (equality included, so no zero-quantity
entry remains), and otherwise decrements it by exactly `qty`. -/
theorem remove_item_spec (s : Stock) (name : String) (q cur : Int)
    (hwf : stockWF s) (hname : name ≠ "") (hq : 0 < q)
    (hcur : dictGet s (.kstr name) = some (.jint cur)) :
    remove_item (.vstr name) (.vint q) s
      = (if cur ≤ q then
           (dictDel s (.kstr name), [.infoRemovedItem name q], none)
         else
           (dictSet s (.kstr name) (.jint (cur - q)),
            [.infoRemovedQty q name (.jint (cur - q))], none))
    ∧ dictGet (remove_item (.vstr name) (.vint q) s).1 (.kstr name)
        = (if cur ≤ q then none else some (.jint (cur - q))) := by
  have hq0 : ¬ q ≤ 0 := not_le.mpr hq
  by_cases hle : cur ≤ q
  · have h1 : remove_item (.vstr name) (.vint q) s
        = (dictDel s (.kstr name), [.infoRemovedItem name q], none) := by
      simp only [remove_item, if_neg hname, pyInt, if_neg hq0, hcur, jle,
        toNum, decide_eq_true hle]
    rw [if_pos hle, if_pos hle, h1]
    exact ⟨rfl, dictGet_del_self hwf _⟩
  · have hd : decide (cur ≤ q) = false := by simp [hle]
    have h1 : remove_item (.vstr name) (.vint q) s
        = (dictSet s (.kstr name) (.jint (cur - q)),
           [.infoRemovedQty q name (.jint (cur - q))], none) := by
      simp only [remove_item, if_neg hname, pyInt, if_neg hq0, hcur, jle,
        toNum, jsub, hd]
    rw [if_neg hle, if_neg hle, h1]
    exact ⟨rfl, dictGet_set_self s _ _⟩

/-- Witness for C3: removing 7 of 7 apples deletes the entry (the tie case),
leaving no zero-quantity entry; removing 3 of 9 pears leaves 6. -/
theorem remove_item_spec_witness :
    (remove_item (.vstr "apple") (.vint 7)
        [(.kstr "apple", .jint 7), (.kstr "pear", .jint 9)]
      = ([(.kstr "pear", .jint 9)], [.infoRemovedItem "apple" 7], none)
    ∧ dictGet (remove_item (.vstr "apple") (.vint 7)
        [(.kstr "apple", .jint 7), (.kstr "pear", .jint 9)]).1 (.kstr "apple")
      = none)
    ∧ (remove_item (.vstr "pear") (.vint 3) [(.kstr "pear", .jint 9)]
      = ([(.kstr "pear", .jint 6)], [.infoRemovedQty 3 "pear" (.jint 6)], none)
    ∧ dictGet (remove_item (.vstr "pear") (.vint 3)
        [(.kstr "pear", .jint 9)]).1 (.kstr "pear")
      = some (.jint 6)) :=
  ⟨remove_item_spec [(.kstr "apple", .jint 7), (.kstr "pear", .jint 9)]
      "apple" 7 7 (by decide) (by decide) (by decide) rfl,
    remove_item_spec [(.kstr "pear", .jint 9)] "pear" 3 9
      (by decide) (by decide) (by decide) rfl⟩

/-- C4 (corrected).  The claim quantifies over every reachable mapping, but
a mapping with a non-string key is reachable through `load` of a JSON pair
list, and `json.dump` stringifies such keys, so the reloaded mapping has a
different key set (see `save_load_roundtrip_counterexample`).  Amended
claim: for every reachable mapping whose keys are all text — in particular
every mapping built by `add`/`remove`/`load` of JSON objects — `save`
followed by `load` of the file just written reproduces exactly the same
mapping (same keys, same values, even the same order), regardless of the
previous in-memory state. -/
theorem save_load_roundtrip (f : String) (s s0 : Stock)
    (hstr : ∀ kv ∈ s, isStrKey kv.1 = true) (hwf : stockWF s) :
    load_data f (.decoded (save_data s)) s0 = (s, [.infoLoaded f], none) := by
  have hupd : dictUpdate [] (save_data s) = (s, none) := by
    simp only [save_data, dictUpdate]
    rw [foldl_set_strkeys s [] hstr (fun kv _ => rfl) hwf]
    rfl
  simp only [load_data, hupd]

/-- Witness for C4: a two-item mapping written by `save_data` is reproduced
by `load_data`, replacing an unrelated previous state. -/
theorem save_load_roundtrip_witness :
    load_data "inventory.json"
      (.decoded (save_data [(.kstr "apple", .jint 10), (.kstr "banana", .jint 25)]))
      [(.kstr "stale", .jint 1)]
    = ([(.kstr "apple", .jint 10), (.kstr "banana", .jint 25)],
       [.infoLoaded "inventory.json"], none) :=
  save_load_roundtrip "inventory.json"
    [(.kstr "apple", .jint 10), (.kstr "banana", .jint 25)]
    [(.kstr "stale", .jint 1)] (by decide) (by decide)

/-- Counterexample to C4 as stated: loading the valid JSON file `[[1, 2]]`
yields the reachable mapping with the integer key 1 (`dict.update` accepts
a sequence of pairs); `json.dump` writes that key as the string "1", so
saving and reloading gives a mapping keyed by "1", not 1 — the key sets
differ. -/
theorem save_load_roundtrip_counterexample :
    load_data "inventory.json" (.decoded (.jarr [.jarr [.jint 1, .jint 2]])) []
      = ([(.kint 1, .jint 2)], [.infoLoaded "inventory.json"], none)
    ∧ save_data [(.kint 1, .jint 2)] = .jobj [("1", .jint 2)]
    ∧ load_data "inventory.json" (.decoded (save_data [(.kint 1, .jint 2)]))
        [(.kint 1, .jint 2)]
      = ([(.kstr "1", .jint 2)], [.infoLoaded "inventory.json"], none)
    ∧ dictGet [(.kint 1, .jint 2)] (.kint 1) = some (.jint 2)
    ∧ dictGet [(.kstr "1", .jint 2)] (.kint 1) = none :=
  ⟨rfl, rfl, rfl, rfl, rfl⟩

/-- C5 (confirmed).  `load_data` on a missing file logs a warning, and on a
file that exists but is not valid JSON logs an error; in both cases the
in-memory mapping is returned exactly unchanged and no exception reaches
the caller. -/
theorem load_data_missing_or_invalid (f : String) (s : Stock) :
    load_data f .absent s = (s, [.warnNotFound f], none)
    ∧ load_data f .invalidJSON s = (s, [.errDecodeFail f], none)
    ∧ (LogMsg.warnNotFound f).level = .warning
    ∧ (LogMsg.errDecodeFail f).level = .error :=
  ⟨rfl, rfl, rfl, rfl⟩

/-- C6 (corrected).  The claim says no operation ever raises and that
`load` is atomic, but `load_data` only catches `FileNotFoundError` and
`JSONDecodeError`: an exception thrown by `stock_data.update(data)` after
`stock_data.clear()` propagates uncaught, with the cleared or partially
repopulated mapping observable (see `load_data_raises_counterexample`).
Amended claim: `load` completes without raising, and atomically, when the
file is missing, is not valid JSON, or decodes to a JSON object — the
mapping is unchanged in the first two cases and fully replaced by the
object's entries in the third.  On every decode the mapping after the call
is exactly the result of clear-then-update on the decoded value, so the
prior mapping never merges in; but for non-object decodes the no-raise and
atomicity guarantees are lost: a number, boolean or null decode raises
uncaught `TypeError` with the mapping left empty; a nonempty string decode
raises uncaught `ValueError` with the mapping left empty; and a list decode
inserts its valid pair elements in order, raising at the first invalid
element and leaving the already-inserted prefix observable (the conjuncts
below prove each outcome, the last one at the mixed list
`[["a", 1], 5]`). -/
theorem load_data_outcomes (f : String) (s : Stock)
    (kvs : List (String × JValue)) (n : Int) (b : Bool) :
    load_data f .absent s = (s, [.warnNotFound f], none)
    ∧ load_data f .invalidJSON s = (s, [.errDecodeFail f], none)
    ∧ load_data f (.decoded (.jobj kvs)) s
        = ((dictUpdate [] (.jobj kvs)).1, [.infoLoaded f], none)
    ∧ (∀ v : JValue, (load_data f (.decoded v) s).1 = (dictUpdate [] v).1)
    ∧ load_data f (.decoded (.jint n)) s = ([], [], some .typeError)
    ∧ load_data f (.decoded (.jbool b)) s = ([], [], some .typeError)
    ∧ load_data f (.decoded .jnull) s = ([], [], some .typeError)
    ∧ load_data f (.decoded (.jstr "ab")) s = ([], [], some .valueError)
    ∧ load_data f (.decoded (.jarr [.jarr [.jstr "a", .jint 1], .jint 5])) s
        = ([(.kstr "a", .jint 1)], [], some .typeError) := by
  refine ⟨rfl, rfl, rfl, ?_, rfl, rfl, rfl, rfl, rfl⟩
  intro v
  cases hu : dictUpdate [] v with
  | mk s2 e => cases e <;> simp [load_data, hu]

/-- Counterexample to C6 as stated: loading a file holding the valid JSON
text `5` over the mapping {"apple": 3} raises `TypeError` and leaves the
mapping empty — neither unchanged nor replaced by decoded contents. -/
theorem load_data_raises_counterexample :
    load_data "inventory.json" (.decoded (.jint 5)) [(.kstr "apple", .jint 3)]
      = ([], [], some .typeError)
    ∧ ([] : Stock) ≠ [(.kstr "apple", .jint 3)] :=
  ⟨rfl, by simp⟩

/-- C7 (confirmed).  Every listed failure path of `add_item` and
`remove_item` returns the mapping exactly unchanged, raises nothing, and
logs the diagnostic the source specifies: invalid item (non-text or empty),
non-integer qty, non-positive integer qty, and (for remove) an item not
present in the mapping. -/
theorem add_remove_failure_paths (s : Stock) (item qty : PyVal) :
    ((∀ name, item = .vstr name → name = "") →
      add_item item qty s = (s, [.errInvalidItem item], none)
      ∧ remove_item item qty s = (s, [.errInvalidItemRm item], none))
    ∧ (∀ name, name ≠ "" → pyInt qty = none →
      add_item (.vstr name) qty s = (s, [.errInvalidQty qty], none)
      ∧ remove_item (.vstr name) qty s = (s, [.errInvalidQtyRm qty], none))
    ∧ (∀ name q, name ≠ "" → pyInt qty = some q → q ≤ 0 →
      add_item (.vstr name) qty s = (s, [.warnQtyNonPositive qty], none)
      ∧ remove_item (.vstr name) qty s = (s, [.errInvalidQtyRm qty], none))
    ∧ (∀ name q, name ≠ "" → pyInt qty = some q → 0 < q →
        dictGet s (.kstr name) = none →
        remove_item (.vstr name) qty s = (s, [.warnNotInStock name], none)) := by
  refine ⟨?_, ?_, ?_, ?_⟩
  · intro hbad
    cases item with
    | vstr name =>
      have h0 : name = "" := hbad name rfl
      subst h0
      exact ⟨rfl, rfl⟩
    | vint n => exact ⟨rfl, rfl⟩
    | vbool b => exact ⟨rfl, rfl⟩
    | vnone => exact ⟨rfl, rfl⟩
    | vother => exact ⟨rfl, rfl⟩
  · intro name hn hq
    constructor
    · simp only [add_item, if_neg hn, hq]
    · simp only [remove_item, if_neg hn, hq]
  · intro name q hn hq hq0
    constructor
    · simp only [add_item, if_neg hn, hq, if_pos hq0]
    · simp only [remove_item, if_neg hn, hq, if_pos hq0]
  · intro name q hn hq hqpos hget
    have hq0 : ¬ q ≤ 0 := not_le.mpr hqpos
    simp only [remove_item, if_neg hn, hq, if_neg hq0, hget]

/-- Witness for C7: each failure path at a concrete input — a `None` item,
a `None` qty, a zero qty, and removing an absent item — leaves the stock
{"banana": 2} untouched with the specified diagnostic. -/
theorem add_remove_failure_paths_witness :
    add_item .vnone .vnone [(.kstr "banana", .jint 2)]
      = ([(.kstr "banana", .jint 2)], [.errInvalidItem .vnone], none)
    ∧ remove_item .vnone .vnone [(.kstr "banana", .jint 2)]
      = ([(.kstr "banana", .jint 2)], [.errInvalidItemRm .vnone], none)
    ∧ add_item (.vstr "apple") .vnone [(.kstr "banana", .jint 2)]
      = ([(.kstr "banana", .jint 2)], [.errInvalidQty .vnone], none)
    ∧ remove_item (.vstr "apple") .vnone [(.kstr "banana", .jint 2)]
      = ([(.kstr "banana", .jint 2)], [.errInvalidQtyRm .vnone], none)
    ∧ add_item (.vstr "apple") (.vint 0) [(.kstr "banana", .jint 2)]
      = ([(.kstr "banana", .jint 2)], [.warnQtyNonPositive (.vint 0)], none)
    ∧ remove_item (.vstr "apple") (.vint 0) [(.kstr "banana", .jint 2)]
      = ([(.kstr "banana", .jint 2)], [.errInvalidQtyRm (.vint 0)], none)
    ∧ remove_item (.vstr "apple") (.vint 1) [(.kstr "banana", .jint 2)]
      = ([(.kstr "banana", .jint 2)], [.warnNotInStock "apple"], none) := by
  obtain ⟨h1, h2, -, -⟩ :=
    add_remove_failure_paths [(.kstr "banana", .jint 2)] .vnone .vnone
  obtain ⟨-, -, h3, -⟩ :=
    add_remove_failure_paths [(.kstr "banana", .jint 2)] .vnone (.vint 0)
  obtain ⟨-, -, -, h4⟩ :=
    add_remove_failure_paths [(.kstr "banana", .jint 2)] .vnone (.vint 1)
  have hbad : ∀ name, PyVal.vnone = PyVal.vstr name → name = "" :=
    fun name h => nomatch h
  obtain ⟨ha1, hr1⟩ := h1 hbad
  obtain ⟨ha2, hr2⟩ := h2 "apple" (by decide) rfl
  obtain ⟨ha3, hr3⟩ := h3 "apple" 0 (by decide) rfl (by decide)
  have hr4 := h4 "apple" 1 (by decide) rfl (by decide) rfl
  exact ⟨ha1, hr1, ha2, hr2, ha3, hr3, hr4⟩

/-- C8 (corrected).  The first half holds: on a non-numeric stored value
`remove_item` performs no mutation and logs "corrupt data" at error level,
raising nothing; `get_qty` also completes fine, returning the stored
object.  But the corrupt-state condition does NOT surface only inside
`remove`: `check_low_items` compares every stored value with the threshold
and raises an uncaught `TypeError` on such a value (and `add_item` on the
same item raises from the `+`) — see
`corrupt_not_confined_counterexample`.  Amended claim: remove handles the
corrupt value with an error-level diagnostic and no mutation, but
`check_low_items` raises `TypeError` whenever any stored value is
non-numeric. -/
theorem remove_corrupt_value (s : Stock) (name : String) (q t : Int)
    (v : JValue) (hname : name ≠ "") (hq : 0 < q)
    (hv : dictGet s (.kstr name) = some v) (hcor : toNum v = none) :
    remove_item (.vstr name) (.vint q) s = (s, [.errCorruptData name], none)
    ∧ (LogMsg.errCorruptData name).level = .error
    ∧ get_qty (.vstr name) s = (v, [])
    ∧ check_low_items t s = .error .typeError := by
  have hq0 : ¬ q ≤ 0 := not_le.mpr hq
  refine ⟨?_, rfl, ?_, ?_⟩
  · simp only [remove_item, if_neg hname, pyInt, if_neg hq0, hv, jle, hcor]
  · simp [get_qty, hv]
  · obtain ⟨k2, hk2⟩ := dictGet_mem hv
    exact check_low_items_has_corrupt t ⟨(k2, v), hk2, hcor⟩

/-- Witness for C8: with "gadget" bound to the string "oops" (as a tampered
file would leave it), `remove_item` logs corrupt data and changes nothing,
`get_qty` returns the string, and `check_low_items` raises. -/
theorem remove_corrupt_value_witness :
    remove_item (.vstr "gadget") (.vint 1)
        [(.kstr "apple", .jint 7), (.kstr "gadget", .jstr "oops")]
      = ([(.kstr "apple", .jint 7), (.kstr "gadget", .jstr "oops")],
         [.errCorruptData "gadget"], none)
    ∧ (LogMsg.errCorruptData "gadget").level = .error
    ∧ get_qty (.vstr "gadget")
        [(.kstr "apple", .jint 7), (.kstr "gadget", .jstr "oops")]
      = (.jstr "oops", [])
    ∧ check_low_items 5 [(.kstr "apple", .jint 7), (.kstr "gadget", .jstr "oops")]
      = .error .typeError :=
  remove_corrupt_value [(.kstr "apple", .jint 7), (.kstr "gadget", .jstr "oops")]
    "gadget" 1 5 (.jstr "oops") (by decide) (by decide) rfl rfl

/-- Counterexample to C8 as stated: the corrupt state {"gadget": "oops"} is
reachable by a single `load`; on it `check_low_items` raises `TypeError`,
and so does `add_item` on the same item — the condition is not confined to
`remove`. -/
theorem corrupt_not_confined_counterexample :
    load_data "inventory.json" (.decoded (.jobj [("gadget", .jstr "oops")])) []
      = ([(.kstr "gadget", .jstr "oops")], [.infoLoaded "inventory.json"], none)
    ∧ check_low_items 5 [(.kstr "gadget", .jstr "oops")] = .error .typeError
    ∧ add_item (.vstr "gadget") (.vint 1) [(.kstr "gadget", .jstr "oops")]
      = ([(.kstr "gadget", .jstr "oops")], [], some .typeError) :=
  ⟨rfl, rfl, rfl⟩

/-- C9 (corrected).  The claim quantifies over every mapping state, but a
state holding a non-numeric value (reachable via `load`, see
`check_low_items_counterexample`) makes `check_low_items` raise `TypeError`
instead of returning.  Amended claim: for every mapping state whose values
are all integers and every integer threshold, `check_low_items` returns
exactly the items whose quantity is ≤ threshold (threshold inclusive), in
the mapping's iteration order; it never takes or returns a modified
mapping, so it mutates nothing. -/
theorem check_low_items_spec (t : Int) (s : Stock)
    (h : ∀ kv ∈ s, isIntVal kv.2 = true) :
    check_low_items t s
      = .ok ((s.filter (fun kv => intLe kv.2 t)).map Prod.fst) := by
  induction s with
  | nil => rfl
  | cons hd tl ih =>
    obtain ⟨k, v⟩ := hd
    have hv := h (k, v) (List.mem_cons_self _ _)
    have htl := ih (fun kv hkv => h kv (List.mem_cons_of_mem _ hkv))
    cases v with
    | jint n =>
      by_cases hle : n ≤ t
      · simp [check_low_items, jle, toNum, decide_eq_true hle, htl,
          List.filter_cons, intLe, Except.map]
      · have hd2 : decide (n ≤ t) = false := by simp [hle]
        simp [check_low_items, jle, toNum, hd2, htl, List.filter_cons, intLe]
    | jbool b => simp [isIntVal] at hv
    | jstr s2 => simp [isIntVal] at hv
    | jnull => simp [isIntVal] at hv
    | jarr xs => simp [isIntVal] at hv
    | jobj kvs => simp [isIntVal] at hv

/-- Witness for C9: the spec's own example — on {apple: 7, banana: 3,
cherry: 5} with threshold 5 the result is exactly [banana, cherry]. -/
theorem check_low_items_spec_witness :
    check_low_items 5
      [(.kstr "apple", .jint 7), (.kstr "banana", .jint 3),
       (.kstr "cherry", .jint 5)]
    = .ok [.kstr "banana", .kstr "cherry"] :=
  check_low_items_spec 5
    [(.kstr "apple", .jint 7), (.kstr "banana", .jint 3),
     (.kstr "cherry", .jint 5)] (by decide)

/-- Counterexample to C9 as stated: on the reachable mapping
{"apple": 7, "gadget": null} (loaded from a tampered file),
`check_low_items 5` raises `TypeError` rather than returning a list. -/
theorem check_low_items_counterexample :
    load_data "inventory.json"
        (.decoded (.jobj [("apple", .jint 7), ("gadget", .jnull)])) []
      = ([(.kstr "apple", .jint 7), (.kstr "gadget", .jnull)],
         [.infoLoaded "inventory.json"], none)
    ∧ check_low_items 5 [(.kstr "apple", .jint 7), (.kstr "gadget", .jnull)]
      = .error .typeError :=
  ⟨rfl, rfl⟩

/-- C10 (confirmed).  For every state and all arguments, `add_item` and
`remove_item` leave the entry of every key other than the item untouched:
looking up any key that does not name the item gives the same result before
and after (whether the call succeeded, failed validation, or raised on a
corrupt value).  Neither function takes or produces a `FileRead`, so
neither touches the file system in the model. -/
theorem add_remove_frame (s : Stock) (item qty : PyVal) (k : PyKey)
    (hk : ∀ name, item = .vstr name → k ≠ .kstr name) :
    dictGet (add_item item qty s).1 k = dictGet s k
    ∧ dictGet (remove_item item qty s).1 k = dictGet s k := by
  cases item with
  | vstr name =>
    have hkk : normKey k ≠ normKey (.kstr name) := by
      intro hh
      exact hk name rfl (normKey_eq_kstr.mp hh)
    by_cases hn : name = ""
    · subst hn; exact ⟨rfl, rfl⟩
    · cases hq : pyInt qty with
      | none =>
        constructor
        · simp only [add_item, if_neg hn, hq]
        · simp only [remove_item, if_neg hn, hq]
      | some q =>
        by_cases hq0 : q ≤ 0
        · constructor
          · simp only [add_item, if_neg hn, hq, if_pos hq0]
          · simp only [remove_item, if_neg hn, hq, if_pos hq0]
        · constructor
          · cases hj : jadd ((dictGet s (.kstr name)).getD (.jint 0)) q with
            | error e => simp only [add_item, if_neg hn, hq, if_neg hq0, hj]
            | ok v =>
              simp only [add_item, if_neg hn, hq, if_neg hq0, hj]
              exact dictGet_set_ne s v hkk
          · cases hv : dictGet s (.kstr name) with
            | none => simp only [remove_item, if_neg hn, hq, if_neg hq0, hv]
            | some v =>
              cases hjl : jle v q with
              | error e =>
                simp only [remove_item, if_neg hn, hq, if_neg hq0, hv, hjl]
              | ok b =>
                cases b with
                | true =>
                  simp only [remove_item, if_neg hn, hq, if_neg hq0, hv, hjl]
                  exact dictGet_del_ne s hkk
                | false =>
                  cases hjs : jsub v q with
                  | error e =>
                    simp only [remove_item, if_neg hn, hq, if_neg hq0, hv,
                      hjl, hjs]
                  | ok v2 =>
                    simp only [remove_item, if_neg hn, hq, if_neg hq0, hv,
                      hjl, hjs]
                    exact dictGet_set_ne s v2 hkk
  | vint n => exact ⟨rfl, rfl⟩
  | vbool b => exact ⟨rfl, rfl⟩
  | vnone => exact ⟨rfl, rfl⟩
  | vother => exact ⟨rfl, rfl⟩

/-- Witness for C10: adding to and removing from "apple" leaves the
"banana" entry of {apple: 7, banana: 3} untouched. -/
theorem add_remove_frame_witness :
    dictGet (add_item (.vstr "apple") (.vint 1)
        [(.kstr "apple", .jint 7), (.kstr "banana", .jint 3)]).1
        (.kstr "banana")
      = dictGet [(.kstr "apple", .jint 7), (.kstr "banana", .jint 3)]
          (.kstr "banana")
    ∧ dictGet (remove_item (.vstr "apple") (.vint 1)
        [(.kstr "apple", .jint 7), (.kstr "banana", .jint 3)]).1
        (.kstr "banana")
      = dictGet [(.kstr "apple", .jint 7), (.kstr "banana", .jint 3)]
          (.kstr "banana") :=
  add_remove_frame [(.kstr "apple", .jint 7), (.kstr "banana", .jint 3)]
    (.vstr "apple") (.vint 1) (.kstr "banana")
    (fun name h => by cases h; decide)
